import Mathlib

/-!
Verification development for the algorithm core of the NEL_Project
(gpolnel) repository: `RandomSearch` (src/random_search.py),
`PopulationBased` (src/population_based.py) and `GeneticAlgorithm`
(src/genetic_algorithm.py).

The problem abstraction (`pi`), the `Solution`/`Population` containers
and the operator functions (initializer, selector, mutator, crossover)
are external collaborators of the core; they are embedded as explicit
data/function parameters, following the interface contracts the core
relies on.  Representations are embedded as integer vectors
(`List Int`); machine floats of the evaluator are abstracted to `Int`
scores, which preserves all order-comparison behaviour the core uses.
-/

namespace Gpolnel

/-- A raw representation of a candidate solution (a numeric vector). -/
abbrev Rep := List Int

/-- The solution-space descriptor (`pi.sspace`), opaque to the core. -/
abbrev SSpace := Nat

/-- `gpolnel.utils.solution.Solution`: one candidate's representation
plus derived fitness and validity flag (both set by evaluation). -/
structure Solution where
  repr_ : Rep
  fitness : Option Int
  valid : Bool
deriving DecidableEq

/-- The external problem instance (`pi`): solution-space descriptor,
a deterministic evaluator (fitness and feasibility as functions of the
representation, per the interface contract) and the `min_` flag. -/
structure Problem where
  sspace : SSpace
  fit : Rep → Int
  feasible : Rep → Bool
  min_ : Bool

/-- `pi.evaluate_sol(sol)`: sets fitness and validity of a solution,
deterministically from its representation. -/
def evaluateSol (pi : Problem) (s : Solution) : Solution :=
  { s with fitness := some (pi.fit s.repr_), valid := pi.feasible s.repr_ }

/-- `gpolnel.utils.population.Population`: an ordered collection of
representations plus parallel arrays of fitness and validity values.
`PopulationTree` (used by `GeneticAlgorithm._set_pop`) has the
identical contract and is embedded by the same structure. -/
structure Population where
  repr_ : List Rep
  fit : List Int
  valid : List Bool
deriving DecidableEq

/-- `pi.evaluate_pop(pop)`: one batched, order-preserving evaluation
filling the fitness and validity arrays. -/
def evaluatePop (pi : Problem) (p : Population) : Population :=
  { repr_ := p.repr_, fit := p.repr_.map pi.fit, valid := p.repr_.map pi.feasible }

/-- The keyword arguments the core passes to an `initializer` call:
`sspace` always; `device` and `n_sols` only at some call sites. -/
structure InitCall where
  sspace : SSpace
  device : Option String
  n_sols : Option Int
deriving DecidableEq

/-! ### Fitness comparison and best-member extraction -/

/-- Strict "a is better than b" under the `min_` flag. -/
def betterFit (m : Bool) (a b : Int) : Bool :=
  if m then decide (a < b) else decide (b < a)

/-- Non-strict "a is at least as good as b" under the `min_` flag. -/
def leFit (m : Bool) (a b : Int) : Prop :=
  if m then a ≤ b else b ≤ a

lemma leFit_refl (m : Bool) (a : Int) : leFit m a a := by
  cases m <;> simp [leFit]

lemma leFit_trans {m : Bool} {a b c : Int} (h1 : leFit m a b) (h2 : leFit m b c) :
    leFit m a c := by
  cases m <;> simp only [leFit, if_true, if_false, Bool.false_eq_true] at * <;> omega

lemma betterFit_false {m : Bool} {a b : Int} (h : betterFit m a b = false) :
    leFit m b a := by
  cases m <;> simp only [betterFit, leFit, if_true, if_false, Bool.false_eq_true,
    decide_eq_false_iff_not] at * <;> omega

lemma betterFit_true {m : Bool} {a b : Int} (h : betterFit m a b = true) :
    leFit m a b := by
  cases m <;> simp only [betterFit, leFit, if_true, if_false, Bool.false_eq_true,
    decide_eq_true_eq] at * <;> omega

/-- One population entry: representation, fitness, validity. -/
abbrev Entry := Rep × Int × Bool

/-- Left fold picking the strictly better entry (keeps the earlier one
on ties). -/
def pickBest (m : Bool) : Entry → List Entry → Entry
  | c, [] => c
  | c, x :: xs => pickBest m (if betterFit m x.2.1 c.2.1 then x else c) xs

lemma pickBest_mem (m : Bool) (c : Entry) (l : List Entry) :
    pickBest m c l = c ∨ pickBest m c l ∈ l := by
  induction l generalizing c with
  | nil => left; rfl
  | cons x xs ih =>
    have step : pickBest m c (x :: xs) =
        pickBest m (if betterFit m x.2.1 c.2.1 then x else c) xs := rfl
    rw [step]
    rcases ih (if betterFit m x.2.1 c.2.1 then x else c) with h | h
    · by_cases hb : betterFit m x.2.1 c.2.1 = true
      · right
        rw [h, if_pos hb]
        exact List.mem_cons_self _ _
      · left
        rw [h, if_neg hb]
    · right; exact List.mem_cons_of_mem _ h

lemma pickBest_le (m : Bool) (c : Entry) (l : List Entry) :
    ∀ x : Entry, (x = c ∨ x ∈ l) → leFit m (pickBest m c l).2.1 x.2.1 := by
  induction l generalizing c with
  | nil =>
    rintro x (rfl | h)
    · exact leFit_refl m _
    · cases h
  | cons y ys ih =>
    intro x hx
    have step : pickBest m c (y :: ys) =
        pickBest m (if betterFit m y.2.1 c.2.1 then y else c) ys := rfl
    rw [step]
    have hle_c : leFit m (if betterFit m y.2.1 c.2.1 then y else c).2.1 c.2.1 := by
      by_cases hb : betterFit m y.2.1 c.2.1 = true
      · simp only [hb, if_true]; exact betterFit_true hb
      · simp only [hb, if_false]; exact leFit_refl m _
    have hle_y : leFit m (if betterFit m y.2.1 c.2.1 then y else c).2.1 y.2.1 := by
      by_cases hb : betterFit m y.2.1 c.2.1 = true
      · simp only [hb, if_true]; exact leFit_refl m _
      · simp only [hb, if_false]
        exact betterFit_false (Bool.not_eq_true _ ▸ hb)
    have hbest := ih (if betterFit m y.2.1 c.2.1 then y else c)
      (if betterFit m y.2.1 c.2.1 then y else c) (Or.inl rfl)
    rcases hx with rfl | hx
    · exact leFit_trans hbest hle_c
    · rcases List.mem_cons.mp hx with rfl | hx
      · exact leFit_trans hbest hle_y
      · exact ih _ x (Or.inr hx)

/-- The entries of a population, zipping the three parallel arrays. -/
def zipRF (p : Population) : List Entry :=
  p.repr_.zip (p.fit.zip p.valid)

/-- Modelled from the spec: `Population.get_best_pop(min_)` of
`gpolnel/utils/population.py` is not under src/; per §4.3 of the spec
it extracts the best individual according to the `minimize` flag
(best = minimum fitness if `min_` else maximum). -/
def getBestPop (m : Bool) (p : Population) : Option Solution :=
  match zipRF p with
  | [] => none
  | c :: rest =>
    let b := pickBest m c rest
    some ⟨b.1, some b.2.1, b.2.2⟩

/-- The entries produced by evaluating a representation list. -/
def evalEntries (pi : Problem) (l : List Rep) : List Entry :=
  l.map (fun r => (r, pi.fit r, pi.feasible r))

lemma zipRF_evalPop (pi : Problem) (l : List Rep) (a : List Int) (v : List Bool) :
    zipRF (evaluatePop pi ⟨l, a, v⟩) = evalEntries pi l := by
  induction l with
  | nil => rfl
  | cons r rs ih =>
    simpa [zipRF, evaluatePop, evalEntries] using ih

lemma getBest_evalPop_cons (pi : Problem) (r0 : Rep) (l : List Rep)
    (a : List Int) (v : List Bool) :
    ∃ s : Solution, getBestPop pi.min_ (evaluatePop pi ⟨r0 :: l, a, v⟩) = some s
      ∧ s.repr_ ∈ r0 :: l
      ∧ s.fitness = some (pi.fit s.repr_)
      ∧ s.valid = pi.feasible s.repr_
      ∧ ∀ r ∈ r0 :: l, leFit pi.min_ (pi.fit s.repr_) (pi.fit r) := by
  have hz : zipRF (evaluatePop pi ⟨r0 :: l, a, v⟩) =
      (r0, pi.fit r0, pi.feasible r0) :: evalEntries pi l := by
    rw [zipRF_evalPop]; rfl
  have hget : getBestPop pi.min_ (evaluatePop pi ⟨r0 :: l, a, v⟩) =
      some ⟨(pickBest pi.min_ (r0, pi.fit r0, pi.feasible r0) (evalEntries pi l)).1,
        some (pickBest pi.min_ (r0, pi.fit r0, pi.feasible r0) (evalEntries pi l)).2.1,
        (pickBest pi.min_ (r0, pi.fit r0, pi.feasible r0) (evalEntries pi l)).2.2⟩ := by
    rw [getBestPop, hz]
  set b := pickBest pi.min_ (r0, pi.fit r0, pi.feasible r0) (evalEntries pi l) with hb
  have hbmem : b = (r0, pi.fit r0, pi.feasible r0) ∨ b ∈ evalEntries pi l :=
    pickBest_mem _ _ _
  have hshape : ∃ rb, rb ∈ r0 :: l ∧ b = (rb, pi.fit rb, pi.feasible rb) := by
    rcases hbmem with h | h
    · exact ⟨r0, List.mem_cons_self _ _, h⟩
    · rcases List.mem_map.mp h with ⟨rb, hrb, hEq⟩
      exact ⟨rb, List.mem_cons_of_mem _ hrb, hEq.symm⟩
  rcases hshape with ⟨rb, hrbmem, hbeq⟩
  refine ⟨⟨b.1, some b.2.1, b.2.2⟩, hget, ?_, ?_, ?_, ?_⟩
  · rw [hbeq]; exact hrbmem
  · show some b.2.1 = some (pi.fit b.1)
    rw [hbeq]
  · show b.2.2 = pi.feasible b.1
    rw [hbeq]
  · intro r hr
    have hx : ((r, pi.fit r, pi.feasible r) : Entry) = (r0, pi.fit r0, pi.feasible r0)
        ∨ ((r, pi.fit r, pi.feasible r) : Entry) ∈ evalEntries pi l := by
      rcases List.mem_cons.mp hr with rfl | hr
      · exact Or.inl rfl
      · exact Or.inr (List.mem_map_of_mem _ hr)
    have := pickBest_le pi.min_ (r0, pi.fit r0, pi.feasible r0) (evalEntries pi l)
      (r, pi.fit r, pi.feasible r) hx
    show leFit pi.min_ (pi.fit ((⟨b.1, some b.2.1, b.2.2⟩ : Solution).repr_)) (pi.fit r)
    have hfit1 : pi.fit b.1 = b.2.1 := by rw [hbeq]
    simpa [hfit1] using this

lemma getBest_evalPop_ne_nil (pi : Problem) (l : List Rep) (hl : l ≠ [])
    (a : List Int) (v : List Bool) :
    ∃ s : Solution, getBestPop pi.min_ (evaluatePop pi ⟨l, a, v⟩) = some s
      ∧ s.repr_ ∈ l
      ∧ s.fitness = some (pi.fit s.repr_)
      ∧ s.valid = pi.feasible s.repr_
      ∧ ∀ r ∈ l, leFit pi.min_ (pi.fit s.repr_) (pi.fit r) := by
  cases l with
  | nil => exact absurd rfl hl
  | cons r0 rs => exact getBest_evalPop_cons pi r0 rs a v

/-! ### RandomSearch (src/random_search.py) -/

/-- The state of a `RandomSearch` object.  The `initializer` operator
(`initF`) is an external function of the passed keyword arguments and
of the two process-wide RNG states (general-purpose `random` and the
tensor library), which it consumes and advances; it is deterministic
given the RNG state, per the interface contract.  `torchRng`/`pyRng`
embed the two process-wide generator states. -/
structure RSState where
  pi : Problem
  initF : InitCall → Nat × Nat → Rep × (Nat × Nat)
  seed : Nat
  device : String
  torchRng : Nat
  pyRng : Nat
  best_sol : Option Solution

/-- `RandomSearch.__init__` (random_search.py:58-76): stores the seed
and seeds both generators from it (`torch.manual_seed(self.seed)`;
`random.seed(self.seed)`). -/
def mkRS (pi : Problem) (f : InitCall → Nat × Nat → Rep × (Nat × Nat))
    (seed : Nat) (device : String) : RSState :=
  { pi := pi, initF := f, seed := seed, device := device,
    torchRng := seed, pyRng := seed, best_sol := none }

/-- The keyword arguments of the initializer call in
`_get_random_sol` (random_search.py:116):
`self.initializer(sspace=self.pi.sspace, device=self.device)`. -/
def rsCall (st : RSState) : InitCall :=
  { sspace := st.pi.sspace, device := some st.device, n_sols := none }

/-- The pair of process-wide RNG states. -/
def rngOf (st : RSState) : Nat × Nat := (st.torchRng, st.pyRng)

/-- The solution `_get_random_sol` builds from the current RNG state
(random_search.py:100-122): draw a representation from the
initializer, wrap it as a `Solution`, evaluate it. -/
def rsSol (st : RSState) : Solution :=
  evaluateSol st.pi (Solution.mk (st.initF (rsCall st) (rngOf st)).1 none false)

/-- The RNG advance caused by one `_get_random_sol` call. -/
def rsNext (st : RSState) : RSState :=
  { st with torchRng := (st.initF (rsCall st) (rngOf st)).2.1,
            pyRng := (st.initF (rsCall st) (rngOf st)).2.2 }

/-- The state after `j` initializer draws have been consumed. -/
def rsIter (st : RSState) : Nat → RSState
  | 0 => st
  | j + 1 => rsNext (rsIter st j)

/-- The retry loop of `_initialize` (random_search.py:96-98), with
explicit fuel: draw, and stop as soon as a feasible candidate is
produced.  `best_sol = none` in the result encodes that the loop has
not terminated within `fuel` draws (the source imposes no cap). -/
def rsLoop : RSState → Nat → RSState
  | st, 0 => { st with best_sol := none }
  | st, fuel + 1 =>
    if (rsSol st).valid then { rsNext st with best_sol := some (rsSol st) }
    else rsLoop (rsNext st) fuel

/-- `RandomSearch._initialize` (random_search.py:78-98).  The source
branches on `if start_at:`, i.e. on Python truthiness: `None` and any
falsy representation (such as an empty sequence) fall through to the
random-sampling loop. -/
def rsInit (st : RSState) (start_at : Option Rep) (fuel : Nat) : RSState :=
  match start_at with
  | some r =>
    if r.isEmpty then rsLoop st fuel
    else { st with best_sol := some (evaluateSol st.pi (Solution.mk r none false)) }
  | none => rsLoop st fuel

lemma rsNext_pi (st : RSState) : (rsNext st).pi = st.pi := rfl

lemma rsIter_pi (st : RSState) (j : Nat) : (rsIter st j).pi = st.pi := by
  induction j with
  | zero => rfl
  | succ j ih => rw [rsIter, rsNext_pi, ih]

lemma rsSol_valid (st : RSState) :
    (rsSol st).valid = st.pi.feasible (st.initF (rsCall st) (rngOf st)).1 := rfl

lemma rsIter_next_comm (st : RSState) (j : Nat) :
    rsIter (rsNext st) j = rsNext (rsIter st j) := by
  induction j with
  | zero => rfl
  | succ j ih => rw [rsIter, ih, rsIter]

lemma rsLoop_valid : ∀ (fuel : Nat) (st : RSState) (s : Solution),
    (rsLoop st fuel).best_sol = some s → s.valid = true := by
  intro fuel
  induction fuel with
  | zero => intro st s h; simp [rsLoop] at h
  | succ fuel ih =>
    intro st s h
    rw [rsLoop] at h
    by_cases hv : (rsSol st).valid = true
    · rw [if_pos hv] at h
      simp only [Option.some.injEq] at h
      rw [← h]; exact hv
    · rw [if_neg hv] at h
      exact ih _ _ h

lemma rsLoop_stops_short : ∀ (n : Nat) (st : RSState),
    (∀ j, j < n → (rsSol (rsIter st j)).valid = false) →
    (rsLoop st n).best_sol = none := by
  intro n
  induction n with
  | zero => intro st _; rfl
  | succ n ih =>
    intro st h
    have h0 : (rsSol st).valid = false := h 0 (Nat.succ_pos n)
    rw [rsLoop, if_neg (by rw [h0]; exact Bool.false_ne_true)]
    refine ih (rsNext st) ?_
    intro j hj
    rw [rsIter_next_comm]
    exact h (j + 1) (Nat.succ_lt_succ hj)

lemma rsLoop_exact : ∀ (n : Nat) (st : RSState),
    (∀ j, j < n → (rsSol (rsIter st j)).valid = false) →
    (rsSol (rsIter st n)).valid = true →
    (rsLoop st (n + 1)).best_sol = some (rsSol (rsIter st n)) := by
  intro n
  induction n with
  | zero =>
    intro st _ hv
    simp only [rsIter] at hv ⊢
    rw [rsLoop, if_pos hv]
  | succ n ih =>
    intro st h hv
    have h0 : (rsSol st).valid = false := h 0 (Nat.succ_pos n)
    rw [rsLoop, if_neg (by rw [h0]; exact Bool.false_ne_true)]
    have hshift : ∀ j, j < n → (rsSol (rsIter (rsNext st) j)).valid = false := by
      intro j hj
      rw [rsIter_next_comm]
      exact h (j + 1) (Nat.succ_lt_succ hj)
    have hvalid' : (rsSol (rsIter (rsNext st) n)).valid = true := by
      rw [rsIter_next_comm]
      exact hv
    have hres := ih (rsNext st) hshift hvalid'
    rw [hres, rsIter_next_comm]
    rfl

/-! ### PopulationBased (src/population_based.py) -/

/-- The state of a `PopulationBased` object.  Here the initializer is
invoked in batched form only (population_based.py:106); the `mutator`
operator is an external function the `_initialize` path never calls,
kept as an opaque tag. -/
structure PBState where
  pi : Problem
  initF : InitCall → List Rep
  mutator : Nat
  pop_size : Int
  seed : Nat
  device : String
  pop : Option Population
  best_sol : Option Solution

/-- The keyword arguments of the batched initializer call in
`PopulationBased._initialize` (population_based.py:106):
`self.initializer(sspace=self.pi.sspace, n_sols=pop_size)` — note the
absence of a `device` argument at this call site. -/
def pbCall (st : PBState) (n : Int) : InitCall :=
  { sspace := st.pi.sspace, device := none, n_sols := some n }

/-- The local `pop_size` recomputation and seeding of the emerging
representation list (population_based.py:99-103): `pop_size -=
len(start_at)` and `pop_repr.extend(start_at)` when `start_at is not
None`. -/
def pbSeed (st : PBState) : Option (List Rep) → Int × List Rep
  | some l => (st.pop_size - l.length, l)
  | none => (st.pop_size, [])

/-- The combined representation list after the batched initializer
call (population_based.py:104-106). -/
def pbRepr (st : PBState) (sa : Option (List Rep)) : List Rep :=
  (pbSeed st sa).2 ++ st.initF (pbCall st (pbSeed st sa).1)

/-- `PopulationBased._set_pop` (population_based.py:113-130) /
`GeneticAlgorithm._set_pop` (genetic_algorithm.py:129-147): build the
population container (`Population` / `PopulationTree`, identical
contract), evaluate it in one batched `pi.evaluate_pop` call, then
`_set_best_sol` (population_based.py:132-142): `self.best_sol =
self.pop.get_best_pop(min_=self.pi.min_)`. -/
def pbSetPop (st : PBState) (pop_repr : List Rep) : PBState :=
  { st with pop := some (evaluatePop st.pi (Population.mk pop_repr [] [])),
            best_sol := getBestPop st.pi.min_ (evaluatePop st.pi (Population.mk pop_repr [] [])) }

/-- `PopulationBased._initialize` (population_based.py:87-111).  The
representations here are integer vectors, not tensors, so the
`torch.stack` branch is not taken; but its guard
`isinstance(pop_repr[0], torch.Tensor)` (population_based.py:108)
evaluates `pop_repr[0]`, which raises `IndexError` when the combined
list is empty — embedded as `none`. -/
def pbInit (st : PBState) (sa : Option (List Rep)) : Option PBState :=
  match pbRepr st sa with
  | [] => none
  | _ :: _ => some (pbSetPop st (pbRepr st sa))

/-! ### GeneticAlgorithm (src/genetic_algorithm.py) -/

/-- The state of a `GeneticAlgorithm` object.  The selector, mutator
and crossover operators are external functions; `_initialize` and the
constructor never call them, so they are kept as opaque tags here and
the breeding pipeline of a generation is abstracted as a function
parameter where needed.  Probabilities are embedded as rationals. -/
structure GAState where
  pi : Problem
  selector : Nat
  mutator : Nat
  crossover : Nat
  p_m : Rat
  p_c : Rat
  pop_size : Int
  elitism : Bool
  reproduction : Bool
  seed : Nat
  device : String
  torchRng : Nat
  pyRng : Nat
  pop : Option Population
  best_sol : Option Solution

/-- `GeneticAlgorithm.__init__` (genetic_algorithm.py:80-127), which
chains through `PopulationBased.__init__` (population_based.py:63-85)
to `RandomSearch.__init__` (random_search.py:58-76), where both RNGs
are seeded from the single integer seed.  Every parameter is stored
verbatim; the source contains no validation and no raise statement,
so the embedding always returns `Except.ok`. -/
def gaMk (pi : Problem) (selector mutator crossover : Nat) (p_m p_c : Rat)
    (pop_size : Int) (elitism reproduction : Bool) (seed : Nat)
    (device : String) : Except String GAState :=
  Except.ok
    { pi := pi, selector := selector, mutator := mutator, crossover := crossover,
      p_m := p_m, p_c := p_c, pop_size := pop_size, elitism := elitism,
      reproduction := reproduction, seed := seed, device := device,
      torchRng := seed, pyRng := seed, pop := none, best_sol := none }

/-- Whether a construction attempt succeeded (no exception raised). -/
def exceptOk (e : Except String GAState) : Bool :=
  match e with
  | Except.ok _ => true
  | Except.error _ => false

/-- Modelled from the spec: the GA generational step (§4.4) is not
under src/ (src/genetic_algorithm.py holds only `__init__` and
`_set_pop`).  Per the spec: the selection/variation pipeline breeds
`pop_size` offspring (minus one slot when `elitism`), abstracted here
as `breedF`, deterministic given the RNG state; when `elitism` is
true the current `best_sol`'s representation is carried unchanged
into the new population, occupying one slot; the population is then
replaced wholesale and re-evaluated and `best_sol` recomputed, which
follows the src `_set_pop`/`_set_best_sol` contract (batched
`evaluate_pop`, then `get_best_pop(min_)`). -/
def gaStep (breedF : Nat × Nat → Population → List Rep × (Nat × Nat))
    (st : GAState) : GAState :=
  match st.pop, st.best_sol with
  | some p, some b =>
    let od := breedF (st.torchRng, st.pyRng) p
    let newRepr := if st.elitism then od.1 ++ [b.repr_] else od.1
    { st with torchRng := od.2.1, pyRng := od.2.2,
              pop := some (evaluatePop st.pi (Population.mk newRepr [] [])),
              best_sol := getBestPop st.pi.min_ (evaluatePop st.pi (Population.mk newRepr [] [])) }
  | _, _ => st

/-- `N` consecutive generational steps. -/
def gaIter (breedF : Nat × Nat → Population → List Rep × (Nat × Nat)) :
    GAState → Nat → GAState
  | st, 0 => st
  | st, n + 1 => gaIter breedF (gaStep breedF st) n

/-- Strict "better" on optional fitness values (unset fitness is
never better). -/
def isBetterB (m : Bool) : Option Int → Option Int → Bool
  | some x, some y => betterFit m x y
  | _, _ => false

/-- Modelled from the spec: one iteration of `RandomSearch.solve`
(§4.2, not under src/): sample one candidate, evaluate it, replace
`best_sol` if the new candidate is feasible and strictly better.
Returns the sampled representation together with the new state. -/
def rsStep (st : RSState) : Rep × RSState :=
  let r := (st.initF (rsCall st) (rngOf st)).1
  let s := rsSol st
  match st.best_sol with
  | none => (r, { rsNext st with best_sol := some s })
  | some b =>
    if s.valid && isBetterB st.pi.min_ s.fitness b.fitness then
      (r, { rsNext st with best_sol := some s })
    else (r, rsNext st)

/-- Modelled from the spec: `N` iterations of the `RandomSearch.solve`
sampling loop, collecting the sampled representations in order. -/
def rsSolve : RSState → Nat → List Rep × RSState
  | st, 0 => ([], st)
  | st, n + 1 =>
    let q := rsStep st
    let w := rsSolve q.2 n
    (q.1 :: w.1, w.2)

lemma rsLoop_frame : ∀ (fuel : Nat) (st : RSState),
    (rsLoop st fuel).pi = st.pi ∧ (rsLoop st fuel).initF = st.initF
    ∧ (rsLoop st fuel).seed = st.seed ∧ (rsLoop st fuel).device = st.device := by
  intro fuel
  induction fuel with
  | zero => intro st; exact ⟨rfl, rfl, rfl, rfl⟩
  | succ fuel ih =>
    intro st
    rw [rsLoop]
    by_cases hv : (rsSol st).valid = true
    · rw [if_pos hv]; exact ⟨rfl, rfl, rfl, rfl⟩
    · rw [if_neg hv]; exact ih (rsNext st)

/-! ### Concrete instances (used by witnesses and counterexamples) -/

/-- A problem where every representation is feasible, fitness is the
first component, and the problem minimizes. -/
def piAll : Problem :=
  { sspace := 0, fit := fun r => r.headD 0, feasible := fun _ => true, min_ := true }

/-- A problem where only non-empty representations are feasible. -/
def piNE : Problem :=
  { sspace := 0, fit := fun r => r.headD 0, feasible := fun r => !r.isEmpty, min_ := true }

/-- A problem where no representation is feasible. -/
def piNever : Problem :=
  { sspace := 0, fit := fun r => r.headD 0, feasible := fun _ => false, min_ := true }

/-- A single-draw initializer that always returns `[5]`. -/
def fConst5 : InitCall → Nat × Nat → Rep × (Nat × Nat) :=
  fun _ g => ([5], (g.1 + 1, g.2 + 1))

/-- A single-draw initializer whose first draw (RNG state 0) is the
empty representation and whose later draws are `[3]`. -/
def fAlt : InitCall → Nat × Nat → Rep × (Nat × Nat) :=
  fun _ g => if g.1 = 0 then ([], (g.1 + 1, g.2)) else ([3], (g.1 + 1, g.2))

/-- RandomSearch instance whose first draw is infeasible and whose
second draw is feasible. -/
def stW : RSState := mkRS piNE fAlt 0 "cpu"

/-- RandomSearch instance whose draws are never feasible. -/
def stN : RSState := mkRS piNever fConst5 0 "cpu"

/-- RandomSearch instance over the all-feasible problem. -/
def stc2 : RSState := mkRS piAll fConst5 0 "cpu"

/-- A batched initializer returning `[[1], [2], ..., [n]]` when asked
for `n` representations (and `[]` for non-positive `n`). -/
def initRange : InitCall → List Rep :=
  fun c =>
    match c.n_sols with
    | some n => (List.range n.toNat).map (fun i : Nat => [(i : Int) + 1])
    | none => []

/-- PopulationBased instance of the spec scenario: `pop_size = 4`,
`seed = 0`, initializer producing `[1], [2], [3], [4]` in order, and
a minimizing problem whose fitness is the representation's first
element. -/
def st4 : PBState :=
  { pi := piAll, initF := initRange, mutator := 0, pop_size := 4,
    seed := 0, device := "cpu", pop := none, best_sol := none }

/-- PopulationBased instance with `pop_size = 0`. -/
def stZ : PBState :=
  { pi := piAll, initF := initRange, mutator := 0, pop_size := 0,
    seed := 0, device := "cpu", pop := none, best_sol := none }

/-- PopulationBased instance with `pop_size = 2` (for oversized
`start_at`). -/
def stC7 : PBState :=
  { pi := piAll, initF := initRange, mutator := 0, pop_size := 2,
    seed := 0, device := "cpu", pop := none, best_sol := none }

/-- PopulationBased instance configured with device `"cuda"`. -/
def stC9 : PBState :=
  { pi := piAll, initF := initRange, mutator := 0, pop_size := 4,
    seed := 0, device := "cuda", pop := none, best_sol := none }

/-- GeneticAlgorithm state holding a one-member population whose best
solution has fitness 5. -/
def gW : GAState :=
  { pi := piAll, selector := 0, mutator := 0, crossover := 0,
    p_m := 1/5, p_c := 4/5, pop_size := 2, elitism := true,
    reproduction := false, seed := 0, device := "cpu",
    torchRng := 0, pyRng := 0,
    pop := some (Population.mk [[5]] [5] [true]),
    best_sol := some (Solution.mk [5] (some 5) true) }

/-- A breeding pipeline producing one offspring `[9]` (worse than the
elite under `piAll`). -/
def breedW : Nat × Nat → Population → List Rep × (Nat × Nat) :=
  fun g _ => ([[9]], g)

/-! ### Claim theorems -/

/-- C1: whenever `RandomSearch._initialize` with `start_at = None`
returns (i.e. the retry loop terminates within its fuel), the
installed `best_sol` is non-null and feasible: an infeasible candidate
is never the final result of `_initialize`. -/
theorem rs_init_none_returns_valid (st : RSState) (fuel : Nat) (s : Solution)
    (h : (rsInit st none fuel).best_sol = some s) : s.valid = true :=
  rsLoop_valid fuel st s h

theorem rs_init_none_returns_valid_witness :
    (rsInit stW none 2).best_sol = some (Solution.mk [3] (some 3) true)
    ∧ (Solution.mk [3] (some 3) true).valid = true :=
  ⟨by decide, rs_init_none_returns_valid stW 2 (Solution.mk [3] (some 3) true) (by decide)⟩

/-- C2: evaluation of the code at the failing input.  The source
branches on `if start_at:` (random_search.py:89), so a supplied but
falsy representation — here the empty vector `[]`, feasible under the
all-feasible problem — is treated as absent: the random-sampling
branch runs and `best_sol` is the first random draw `[5]`, not the
supplied `start_at`.  A supplied truthy representation `[7]` is, by
contrast, installed unconditionally. -/
theorem rs_init_falsy_start_at_takes_sampling_branch :
    (rsInit stc2 (some []) 1).best_sol = some (Solution.mk [5] (some 5) true)
    ∧ (Solution.mk [5] (some 5) true).repr_ ≠ ([] : Rep)
    ∧ (rsInit stc2 (some [7]) 1).best_sol = some (Solution.mk [7] (some 7) true) :=
  ⟨by decide, by decide, by decide⟩

/-- C8: the retry loop of `_initialize(start_at=None)` draws one
random solution at a time and terminates exactly when a feasible
candidate is produced.  If the first `n` draws are infeasible and the
`(n+1)`-st is feasible, the loop terminates after exactly `n + 1`
draws (fuel `n` does not suffice, fuel `n + 1` returns that very
draw, installed as `best_sol`); under persistent infeasibility no
amount of fuel makes it terminate (no retry cap is imposed). -/
theorem rs_retry_loop_exact_draws (st : RSState) (n : Nat) :
    ((∀ j, j < n → (rsSol (rsIter st j)).valid = false) →
      (rsSol (rsIter st n)).valid = true →
        (rsInit st none (n + 1)).best_sol = some (rsSol (rsIter st n))
        ∧ (rsInit st none n).best_sol = none)
    ∧ ((∀ j, (rsSol (rsIter st j)).valid = false) →
        ∀ fuel, (rsInit st none fuel).best_sol = none) :=
  ⟨fun h1 h2 => ⟨rsLoop_exact n st h1 h2, rsLoop_stops_short n st h1⟩,
   fun h fuel => rsLoop_stops_short fuel st (fun j _ => h j)⟩

theorem rs_retry_loop_exact_draws_witness :
    ((rsInit stW none 2).best_sol = some (rsSol (rsIter stW 1))
      ∧ (rsInit stW none 1).best_sol = none)
    ∧ (rsInit stN none 3).best_sol = none :=
  ⟨(rs_retry_loop_exact_draws stW 1).1
      (by
        intro j hj
        have hj0 : j = 0 := by omega
        subst hj0
        decide)
      (by decide),
   (rs_retry_loop_exact_draws stN 0).2
      (by
        intro j
        rw [rsSol_valid, rsIter_pi]
        rfl)
      3⟩

lemma initRange_length (c : InitCall) (n : Int) (h : c.n_sols = some n)
    (hn : 0 ≤ n) : ((initRange c).length : Int) = n := by
  simp only [initRange, h]
  rw [List.length_map, List.length_range]
  exact Int.toNat_of_nonneg hn

lemma pbInit_eq_of_ne_nil (st : PBState) (sa : Option (List Rep))
    (h : pbRepr st sa ≠ []) :
    pbInit st sa = some (pbSetPop st (pbRepr st sa)) := by
  unfold pbInit
  cases hR : pbRepr st sa with
  | nil => exact absurd hR h
  | cons a as => rfl

lemma pbInit_some_ne_nil (st : PBState) (sa : Option (List Rep)) (st' : PBState)
    (h : pbInit st sa = some st') : pbRepr st sa ≠ [] := by
  intro hnil
  unfold pbInit at h
  rw [hnil] at h
  exact Option.noConfusion h

/-- C3: counterexample to the claim as stated.  With `pop_size = 0`
and `start_at = None` (so `k = 0 ≤ N = 0`, and the initializer duly
returns the requested zero representations), `_initialize` does not
build a population of 0 members: the guard
`isinstance(pop_repr[0], torch.Tensor)` (population_based.py:108)
indexes the empty list and raises `IndexError`. -/
theorem pb_init_pop_size_zero_raises :
    stZ.pop_size = 0 ∧ pbInit stZ none = none :=
  ⟨rfl, rfl⟩

/-- C3 (amended to `pop_size ≥ 1`): for every PopulationBased state
with `1 ≤ pop_size` and every `start_at` of length `k ≤ pop_size` (or
`start_at = None`), assuming the initializer returns exactly the
requested count, `_initialize` builds a population of exactly
`pop_size` members whose first `k` entries are the supplied
representations verbatim, the rest coming from the single batched
initializer call. -/
theorem pb_init_seeded_pop_size (st : PBState) (sa : Option (List Rep))
    (hinit : ∀ n : Int, 0 ≤ n → ((st.initF (pbCall st n)).length : Int) = n)
    (hlen : ∀ l, sa = some l → (l.length : Int) ≤ st.pop_size)
    (hN : 1 ≤ st.pop_size) :
    ∃ st' p, pbInit st sa = some st' ∧ st'.pop = some p
      ∧ (p.repr_.length : Int) = st.pop_size
      ∧ ∀ l, sa = some l → p.repr_.take l.length = l := by
  have hRlen : ((pbRepr st sa).length : Int) = st.pop_size := by
    cases sa with
    | none =>
      have h0 : (0 : Int) ≤ st.pop_size := by omega
      simp only [pbRepr, pbSeed, List.nil_append]
      exact hinit st.pop_size h0
    | some l =>
      have hle := hlen l rfl
      have h0 : (0 : Int) ≤ st.pop_size - l.length := by omega
      have hlen2 := hinit (st.pop_size - l.length) h0
      simp only [pbRepr, pbSeed, List.length_append]
      push_cast
      push_cast at hlen2
      omega
  have hRne : pbRepr st sa ≠ [] := by
    intro hnil
    rw [hnil] at hRlen
    simp only [List.length_nil, Nat.cast_zero] at hRlen
    omega
  refine ⟨pbSetPop st (pbRepr st sa),
    evaluatePop st.pi (Population.mk (pbRepr st sa) [] []),
    pbInit_eq_of_ne_nil st sa hRne, rfl, hRlen, ?_⟩
  intro l hl
  subst hl
  show (pbRepr st (some l)).take l.length = l
  simp only [pbRepr, pbSeed]
  exact List.take_left l _

theorem pb_init_seeded_pop_size_witness :
    ∃ st' p, pbInit st4 (some [[9], [8]]) = some st' ∧ st'.pop = some p
      ∧ (p.repr_.length : Int) = st4.pop_size
      ∧ ∀ l, (some [[9], [8]] : Option (List Rep)) = some l →
          p.repr_.take l.length = l :=
  pb_init_seeded_pop_size st4 (some [[9], [8]])
    (by
      intro n hn
      exact initRange_length (pbCall st4 n) n rfl hn)
    (by
      intro l hl
      cases hl
      decide)
    (by decide)

/-- C10: `_initialize` only (re)assigns the `pop` and `best_sol`
state: for PopulationBased, every successful `_initialize` leaves
`pi`, the initializer, `mutator`, `pop_size` (reduced only in a local
variable), `seed` and `device` untouched; for RandomSearch,
`_initialize` leaves `pi`, the initializer, `seed` and `device`
untouched for every `start_at` and fuel. -/
theorem init_frame_preserves_config :
    (∀ (st : PBState) (sa : Option (List Rep)) (st' : PBState),
      pbInit st sa = some st' →
        st'.pi = st.pi ∧ st'.initF = st.initF ∧ st'.mutator = st.mutator
        ∧ st'.pop_size = st.pop_size ∧ st'.seed = st.seed
        ∧ st'.device = st.device)
    ∧ (∀ (st : RSState) (sa : Option Rep) (fuel : Nat),
        (rsInit st sa fuel).pi = st.pi ∧ (rsInit st sa fuel).initF = st.initF
        ∧ (rsInit st sa fuel).seed = st.seed
        ∧ (rsInit st sa fuel).device = st.device) := by
  constructor
  · intro st sa st' h
    rw [pbInit_eq_of_ne_nil st sa (pbInit_some_ne_nil st sa st' h)] at h
    cases h
    exact ⟨rfl, rfl, rfl, rfl, rfl, rfl⟩
  · intro st sa fuel
    cases sa with
    | none => exact rsLoop_frame fuel st
    | some r =>
      simp only [rsInit]
      by_cases he : r.isEmpty = true
      · rw [if_pos he]; exact rsLoop_frame fuel st
      · rw [if_neg he]; exact ⟨rfl, rfl, rfl, rfl⟩

theorem init_frame_preserves_config_witness :
    (pbSetPop st4 (pbRepr st4 none)).pi = st4.pi
    ∧ (pbSetPop st4 (pbRepr st4 none)).initF = st4.initF
    ∧ (pbSetPop st4 (pbRepr st4 none)).mutator = st4.mutator
    ∧ (pbSetPop st4 (pbRepr st4 none)).pop_size = st4.pop_size
    ∧ (pbSetPop st4 (pbRepr st4 none)).seed = st4.seed
    ∧ (pbSetPop st4 (pbRepr st4 none)).device = st4.device :=
  init_frame_preserves_config.1 st4 none (pbSetPop st4 (pbRepr st4 none))
    (pbInit_eq_of_ne_nil st4 none (by decide))

/-- C6: after a successful `_initialize`, the population was evaluated
in one batched `evaluate_pop` call (its fitness array is exactly the
evaluator mapped over its members, in order), and `best_sol` is a
population member of extremal fitness — minimal when `pi.min_`,
maximal otherwise, as `leFit` encodes.  In particular, for the
scenario instance `st4` (`pop_size = 4`, `seed = 0`, initializer
returning `[1], [2], [3], [4]` in order, minimizing fitness = first
element), `best_sol` after initialization has fitness 1. -/
theorem pb_init_best_sol_extremal (st : PBState) (sa : Option (List Rep))
    (st' : PBState) (p : Population)
    (h : pbInit st sa = some st') (hp : st'.pop = some p) :
    (∃ b, st'.best_sol = some b ∧ b.repr_ ∈ p.repr_
       ∧ b.fitness = some (st.pi.fit b.repr_)
       ∧ ∀ r ∈ p.repr_, leFit st.pi.min_ (st.pi.fit b.repr_) (st.pi.fit r))
    ∧ p.fit = p.repr_.map st.pi.fit
    ∧ (∃ g b4, pbInit st4 none = some g ∧ g.best_sol = some b4
        ∧ b4.fitness = some 1) := by
  have hne : pbRepr st sa ≠ [] := pbInit_some_ne_nil st sa st' h
  rw [pbInit_eq_of_ne_nil st sa hne] at h
  cases h
  have hp2 : some (evaluatePop st.pi (Population.mk (pbRepr st sa) [] [])) = some p := hp
  obtain rfl : evaluatePop st.pi (Population.mk (pbRepr st sa) [] []) = p :=
    Option.some_inj.mp hp2
  obtain ⟨s, hgs, hmem, hfitS, hval, hbound⟩ :=
    getBest_evalPop_ne_nil st.pi (pbRepr st sa) hne [] []
  refine ⟨⟨s, hgs, hmem, hfitS, hbound⟩, rfl, ?_⟩
  exact ⟨pbSetPop st4 (pbRepr st4 none), Solution.mk [1] (some 1) true,
    pbInit_eq_of_ne_nil st4 none (by decide), by decide, rfl⟩

theorem pb_init_best_sol_extremal_witness :
    (∃ b, (pbSetPop st4 (pbRepr st4 none)).best_sol = some b
       ∧ b.repr_ ∈ (evaluatePop st4.pi (Population.mk (pbRepr st4 none) [] [])).repr_
       ∧ b.fitness = some (st4.pi.fit b.repr_)
       ∧ ∀ r ∈ (evaluatePop st4.pi (Population.mk (pbRepr st4 none) [] [])).repr_,
           leFit st4.pi.min_ (st4.pi.fit b.repr_) (st4.pi.fit r))
    ∧ (evaluatePop st4.pi (Population.mk (pbRepr st4 none) [] [])).fit
        = (evaluatePop st4.pi (Population.mk (pbRepr st4 none) [] [])).repr_.map st4.pi.fit
    ∧ (∃ g b4, pbInit st4 none = some g ∧ g.best_sol = some b4
        ∧ b4.fitness = some 1) :=
  pb_init_best_sol_extremal st4 none (pbSetPop st4 (pbRepr st4 none))
    (evaluatePop st4.pi (Population.mk (pbRepr st4 none) [] []))
    (pbInit_eq_of_ne_nil st4 none (by decide)) rfl

/-- C7: counterexample to the claim as stated.  A GeneticAlgorithm is
constructed with `p_m = 2` (outside `[0, 1]`), `p_c = -1` (outside
`[0, 1]`) and `pop_size = -5` (non-positive), yet construction
succeeds — no exception or configuration error is raised
(genetic_algorithm.py:80-127 and population_based.py:63-85 contain no
validation). -/
theorem ga_mk_accepts_invalid_config :
    (1 : Rat) < 2 ∧ (-1 : Rat) < 0 ∧ (-5 : Int) ≤ 0
    ∧ exceptOk (gaMk piAll 0 0 0 2 (-1) (-5) true false 0 "cpu") = true :=
  ⟨by norm_num, by norm_num, by decide, rfl⟩

/-- C7 (amended): no validation happens at construction or
initialization time.  `GeneticAlgorithm.__init__` accepts and stores
any `p_m`, `p_c` and `pop_size` verbatim, never raising; and a
non-empty `start_at` longer than `pop_size` is likewise accepted by
`_initialize` without error (the batched initializer simply receives
a negative count). -/
theorem ga_mk_performs_no_validation :
    (∀ (pi : Problem) (sel mu xo : Nat) (pm pc : Rat) (ps : Int)
       (el rp : Bool) (s : Nat) (d : String),
      ∃ g, gaMk pi sel mu xo pm pc ps el rp s d = Except.ok g
        ∧ g.p_m = pm ∧ g.p_c = pc ∧ g.pop_size = ps)
    ∧ (∀ (st : PBState) (l : List Rep), l ≠ [] →
        ∃ st', pbInit st (some l) = some st') := by
  constructor
  · intro pi sel mu xo pm pc ps el rp s d
    exact ⟨_, rfl, rfl, rfl, rfl⟩
  · intro st l hl
    cases l with
    | nil => exact absurd rfl hl
    | cons a as => exact ⟨_, rfl⟩

theorem ga_mk_performs_no_validation_witness :
    ∃ st', pbInit stC7 (some [[1], [2], [3]]) = some st' :=
  ga_mk_performs_no_validation.2 stC7 [[1], [2], [3]] (by decide)

/-- C9: counterexample to the claim as stated.  The batched
initializer invocation in `PopulationBased._initialize`
(population_based.py:106) passes `sspace` and `n_sols` but no
`device` argument: for the instance configured with device `"cuda"`,
the keyword arguments of the batched call do not include its
processing device. -/
theorem pb_call_omits_device :
    stC9.device = "cuda" ∧ (pbCall stC9 4).device ≠ some stC9.device :=
  ⟨rfl, by decide⟩

/-- C9 (amended): the single-solution draw in
`RandomSearch._get_random_sol` (random_search.py:116) passes the
solution-space descriptor and the processing device (and no count),
while the batched draw in `PopulationBased._initialize`
(population_based.py:106) passes the solution-space descriptor and
the requested count but not the device. -/
theorem init_call_args_per_site :
    (∀ st : RSState, rsCall st = InitCall.mk st.pi.sspace (some st.device) none)
    ∧ ∀ (st : PBState) (n : Int),
        pbCall st n = InitCall.mk st.pi.sspace none (some n) :=
  ⟨fun _ => rfl, fun _ _ => rfl⟩

/-- C4: with `elitism = true`, one generational step never degrades
the best fitness: the previous `best_sol`'s representation is carried
unchanged into the new population (occupying one slot), so the new
`best_sol`'s fitness is at least as good — `leFit` encodes
non-increasing under minimization and non-decreasing under
maximization.  `hfit`/`hdet` state that the previous best's stored
fitness `f0` is its (deterministic) evaluation, as established by
normal search progress. -/
theorem ga_step_elitism_monotone
    (breedF : Nat × Nat → Population → List Rep × (Nat × Nat))
    (st : GAState) (p : Population) (b : Solution) (f0 : Int)
    (he : st.elitism = true) (hp : st.pop = some p) (hb : st.best_sol = some b)
    (hfit : b.fitness = some f0) (hdet : f0 = st.pi.fit b.repr_) :
    ∃ b' f', (gaStep breedF st).best_sol = some b' ∧ b'.fitness = some f'
      ∧ b.fitness = some f0 ∧ leFit st.pi.min_ f' f0 := by
  have hstep : (gaStep breedF st).best_sol =
      getBestPop st.pi.min_ (evaluatePop st.pi (Population.mk
        ((breedF (st.torchRng, st.pyRng) p).1 ++ [b.repr_]) [] [])) := by
    unfold gaStep
    rw [hp, hb]
    simp only [he, if_true]
  have hne : (breedF (st.torchRng, st.pyRng) p).1 ++ [b.repr_] ≠ [] := by
    simp
  obtain ⟨s, hgs, hmem, hfitS, hval, hbound⟩ :=
    getBest_evalPop_ne_nil st.pi ((breedF (st.torchRng, st.pyRng) p).1 ++ [b.repr_])
      hne [] []
  refine ⟨s, st.pi.fit s.repr_, ?_, hfitS, hfit, ?_⟩
  · rw [hstep]; exact hgs
  · have hmemb : b.repr_ ∈ (breedF (st.torchRng, st.pyRng) p).1 ++ [b.repr_] :=
      List.mem_append.mpr (Or.inr (List.mem_singleton.mpr rfl))
    rw [hdet]
    exact hbound b.repr_ hmemb

theorem ga_step_elitism_monotone_witness :
    ∃ b' f', (gaStep breedW gW).best_sol = some b' ∧ b'.fitness = some f'
      ∧ (Solution.mk [5] (some 5) true).fitness = some 5
      ∧ leFit gW.pi.min_ f' 5 :=
  ga_step_elitism_monotone breedW gW (Population.mk [[5]] [5] [true])
    (Solution.mk [5] (some 5) true) 5 rfl rfl rfl rfl rfl

/-- C5: on construction, both the general-purpose RNG and the
tensor-library RNG are seeded from the single integer seed — this
holds for `RandomSearch` (random_search.py:72-76) and for
`GeneticAlgorithm`, whose constructor chains down to the same seeding
lines — and two runs built with identical seed, problem instance,
initializer and operators produce identical sequences of sampled
representations and identical `best_sol` after `N` steps, both for
the RandomSearch sampling loop and for `N` GA generational steps. -/
theorem seeded_runs_deterministic :
    (∀ (pi : Problem) (f : InitCall → Nat × Nat → Rep × (Nat × Nat))
       (s : Nat) (d : String),
      (mkRS pi f s d).torchRng = s ∧ (mkRS pi f s d).pyRng = s)
    ∧ (∀ (pi : Problem) (sel mu xo : Nat) (pm pc : Rat) (ps : Int)
         (el rp : Bool) (s : Nat) (d : String),
        ∃ g, gaMk pi sel mu xo pm pc ps el rp s d = Except.ok g
          ∧ g.torchRng = s ∧ g.pyRng = s)
    ∧ (∀ (pi : Problem) (f : InitCall → Nat × Nat → Rep × (Nat × Nat))
         (d : String) (N s1 s2 : Nat), s1 = s2 →
        rsSolve (mkRS pi f s1 d) N = rsSolve (mkRS pi f s2 d) N)
    ∧ (∀ (bf : Nat × Nat → Population → List Rep × (Nat × Nat))
         (pi : Problem) (sel mu xo : Nat) (pm pc : Rat) (ps : Int)
         (el rp : Bool) (d : String) (N s1 s2 : Nat),
        s1 = s2 → ∀ g1 g2,
          gaMk pi sel mu xo pm pc ps el rp s1 d = Except.ok g1 →
          gaMk pi sel mu xo pm pc ps el rp s2 d = Except.ok g2 →
          gaIter bf g1 N = gaIter bf g2 N) := by
  refine ⟨fun pi f s d => ⟨rfl, rfl⟩,
    fun pi sel mu xo pm pc ps el rp s d => ⟨_, rfl, rfl, rfl⟩, ?_, ?_⟩
  · intro pi f d N s1 s2 h
    subst h
    rfl
  · intro bf pi sel mu xo pm pc ps el rp d N s1 s2 h g1 g2 h1 h2
    subst h
    rw [h1] at h2
    cases h2
    rfl

/-- The GAState produced by `gaMk` with seed 3 over `piAll`. -/
def gw3 : GAState :=
  { pi := piAll, selector := 0, mutator := 0, crossover := 0,
    p_m := 1/5, p_c := 4/5, pop_size := 2, elitism := true,
    reproduction := false, seed := 3, device := "cpu",
    torchRng := 3, pyRng := 3, pop := none, best_sol := none }

theorem seeded_runs_deterministic_witness :
    rsSolve (mkRS piAll fConst5 3 "cpu") 2 = rsSolve (mkRS piAll fConst5 3 "cpu") 2
    ∧ (mkRS piAll fConst5 3 "cpu").torchRng = 3
    ∧ gaIter breedW gw3 2 = gaIter breedW gw3 2 :=
  ⟨seeded_runs_deterministic.2.2.1 piAll fConst5 "cpu" 2 3 3 rfl,
   (seeded_runs_deterministic.1 piAll fConst5 3 "cpu").1,
   seeded_runs_deterministic.2.2.2 breedW piAll 0 0 0 (1/5) (4/5) 2 true false
     "cpu" 2 3 3 rfl gw3 gw3 rfl rfl⟩

end Gpolnel
